import Mathlib

/-!
Shallow embedding of the contact-directory program (Task_1.py / Task_2.py;
the data-model classes `Field`/`Name`/`Phone`/`Birthday`/`Record`/`AddressBook`
are identical in the two files).

Raw strings are modelled as `List Char` restricted to the ASCII fragment:
the digit class of the source's regular expressions is modelled by the ASCII
decimal digits.  Python `datetime` values carry a time of day, but every value
compared by this program is a calendar date (birthdays parse at midnight and
the reference instant is typed as a date by the interface), so instants are
modelled at calendar-date granularity and ordered by their proleptic-Gregorian
ordinal, which is the order Python's `datetime` comparison induces on dates.
-/

/-- ASCII decimal digit value of a character, `none` for a non-digit.
Models the `\d` class of the source regular expressions on the ASCII fragment
(code points 48 through 57). -/
def digitVal? (c : Char) : Option Nat :=
  if c.isDigit then some (c.toNat - 48) else none

/-- The ASCII character of a digit value below ten (code point 48 plus the
value). -/
def digitChar (n : Nat) : Char :=
  Char.ofNat (48 + n % 10)

/-- Accumulating decimal value of a digit string. -/
def digitsValAux (acc : Nat) : List Char → Option Nat
  | [] => some acc
  | c :: t =>
    match digitVal? c with
    | none => none
    | some v => digitsValAux (10 * acc + v) t

/-- Decimal value of a nonempty all-digit string, `none` otherwise. -/
def digitsVal? : List Char → Option Nat
  | [] => none
  | c :: t =>
    match digitVal? c with
    | none => none
    | some v => digitsValAux v t

/-- A calendar date, as the (year, month, day) triple a parsed
`datetime` value carries.  Fields are in source order day, month, year. -/
structure Date where
  day : Nat
  month : Nat
  year : Nat
deriving DecidableEq, Repr

/-- Gregorian leap-year test, as Python's `calendar`/`datetime` use it. -/
def isLeap (y : Nat) : Bool :=
  y % 4 == 0 && (y % 100 != 0 || y % 400 == 0)

/-- Length of a month in a given year, as `datetime` validates it. -/
def daysInMonth (y m : Nat) : Nat :=
  if m = 2 then (if isLeap y then 29 else 28)
  else if m = 4 ∨ m = 6 ∨ m = 9 ∨ m = 11 then 30
  else 31

/-- The dates Python's `datetime` can represent: year 1..9999, real
month and day. -/
def ValidDate (d : Date) : Prop :=
  1 ≤ d.year ∧ d.year ≤ 9999 ∧ 1 ≤ d.month ∧ d.month ≤ 12 ∧
    1 ≤ d.day ∧ d.day ≤ daysInMonth d.year d.month

instance : DecidablePred ValidDate := fun d => by
  unfold ValidDate; infer_instance

/-- Days of the year strictly before month `m` in year `y`. -/
def daysBeforeMonth (y m : Nat) : Nat :=
  (List.range (m - 1)).foldl (fun acc i => acc + daysInMonth y (i + 1)) 0

/-- Proleptic-Gregorian ordinal of a date (Python `date.toordinal`); the
order Python's `datetime` comparison induces on dates, and the scale on
which `timedelta(days=n)` adds `n`. -/
def toOrdinal (d : Date) : Nat :=
  365 * (d.year - 1) + (d.year - 1) / 4 - (d.year - 1) / 100 + (d.year - 1) / 400
    + daysBeforeMonth d.year d.month + d.day

/-- `Phone` field: wraps the raw string (`Field.value`). -/
structure Phone where
  value : List Char
deriving DecidableEq, Repr

/-- `Birthday` field: wraps the parsed date (`Birthday.value` is a
`datetime` in the source). -/
structure Birthday where
  value : Date
deriving DecidableEq, Repr

/-- `Name` field: wraps the raw name string. -/
structure Name where
  value : List Char
deriving DecidableEq, Repr

/-- Error message raised by `Phone.__init__` on validation failure. -/
def phoneErr : String := "Invalid phone number format. It should be 10 digits."

/-- Error message raised by `Birthday.__init__` on parse failure. -/
def dateErr : String := "Invalid date format. Use DD.MM.YYYY"

/-- `Phone.__init__`: `re.fullmatch(r"\d\x7b10\x7d", value)` — the whole
string is exactly ten digits; stores the raw string on success, raises
`ValueError(phoneErr)` otherwise. -/
def parsePhone (s : List Char) : Except String Phone :=
  if s.length = 10 ∧ ∀ c ∈ s, (digitVal? c).isSome = true then
    Except.ok ⟨s⟩
  else
    Except.error phoneErr

/-- Split a string at every dot; `n` dots yield `n + 1` parts.  The
regex CPython compiles for the format `"%d.%m.%Y"` consumes maximal digit
runs between literal dots, which determines field boundaries exactly as
this split does. -/
def splitDot : List Char → List (List Char)
  | [] => [[]]
  | c :: t =>
    if c = '.' then [] :: splitDot t
    else
      match splitDot t with
      | [] => [[c]]
      | p :: ps => (c :: p) :: ps

/-- `Birthday.__init__` via `datetime.strptime(value, "%d.%m.%Y")`.
CPython's `_strptime` matches the day against `3[01]|[12]\d|0[1-9]|[1-9]`
(one or two digits, value 1..31), the month against `1[0-2]|0[1-9]|[1-9]`
(one or two digits, value 1..12), the year against `\d\d\d\d` (exactly four
digits), requires the whole string consumed, and then `datetime` validates
the calendar (year at least 1, day at most the month length). -/
def parseBirthday (s : List Char) : Except String Birthday :=
  match splitDot s with
  | [ds, ms, ys] =>
    match digitsVal? ds, digitsVal? ms, digitsVal? ys with
    | some dv, some mv, some yv =>
      if (ds.length = 1 ∨ ds.length = 2) ∧ 1 ≤ dv ∧ dv ≤ 31 ∧
          (ms.length = 1 ∨ ms.length = 2) ∧ 1 ≤ mv ∧ mv ≤ 12 ∧
          ys.length = 4 ∧ ValidDate ⟨dv, mv, yv⟩ then
        Except.ok ⟨⟨dv, mv, yv⟩⟩
      else
        Except.error dateErr
    | _, _, _ => Except.error dateErr
  | _ => Except.error dateErr

/-- `Record.__init__(name)`: wraps the name, empty phone list, no birthday.
The constructor performs no validation and cannot fail. -/
structure Record where
  name : Name
  phones : List Phone
  birthday : Option Birthday
deriving DecidableEq, Repr

/-- `Record(name)` — construction from a raw name string. -/
def mkRecord (name : List Char) : Record :=
  { name := ⟨name⟩, phones := [], birthday := none }

instance : Inhabited Record := ⟨mkRecord []⟩

/-- `Record.find_phone`: first phone whose stored value equals the
argument, else `None`. -/
def findPhone (r : Record) (phone : List Char) : Option Phone :=
  r.phones.find? (fun p => p.value == phone)

/-- `Record.add_phone`: `self.phones.append(Phone(phone))` — the `Phone`
constructor runs first, so on a `ValueError` the list is untouched.  The
result pairs the record state after the call with the raised error, if any. -/
def addPhone (r : Record) (phone : List Char) : Record × Option String :=
  match parsePhone phone with
  | Except.ok p => ({ r with phones := r.phones ++ [p] }, none)
  | Except.error e => (r, some e)

/-- `Record.remove_phone`: removes the phone object `find_phone` returned
(the first with that value), no-op when absent. -/
def removePhone (r : Record) (phone : List Char) : Record :=
  match findPhone r phone with
  | none => r
  | some p => { r with phones := r.phones.erase p }

/-- `Record.edit_phone`: when the old value is found, first removes that
phone, then calls `add_phone` with the new value — which can raise after
the removal already happened. -/
def editPhone (r : Record) (oldPhone newPhone : List Char) : Record × Option String :=
  match findPhone r oldPhone with
  | none => (r, none)
  | some p => addPhone { r with phones := r.phones.erase p } newPhone

/-- `Record.add_birthday`: overwrites the birthday on parse success,
raises on failure leaving it untouched. -/
def addBirthday (r : Record) (birthday : List Char) : Record × Option String :=
  match parseBirthday birthday with
  | Except.ok b => ({ r with birthday := some b }, none)
  | Except.error e => (r, some e)

/-- `AddressBook`: a `UserDict` keyed by name.  A Python `dict` is an
insertion-ordered map: assignment to a present key replaces the value in
place, assignment to an absent key appends. -/
structure AddressBook where
  data : List (List Char × Record)
deriving DecidableEq, Repr

/-- Python `dict` assignment `d[k] = v` on an association list. -/
def dictInsert (l : List (List Char × Record)) (k : List Char) (v : Record) :
    List (List Char × Record) :=
  match l with
  | [] => [(k, v)]
  | (k', v') :: t =>
    if k' = k then (k', v) :: t else (k', v') :: dictInsert t k v

/-- `AddressBook.add_record`: `self.data[record.name.value] = record`. -/
def addRecord (book : AddressBook) (r : Record) : AddressBook :=
  ⟨dictInsert book.data r.name.value r⟩

/-- `AddressBook.find`: `self.data.get(name)`. -/
def findRecord (book : AddressBook) (name : List Char) : Option Record :=
  (book.data.find? (fun e => e.1 == name)).map Prod.snd

/-- The records of the book, in dict iteration (insertion) order
(`self.data.values()`). -/
def bookValues (book : AddressBook) : List Record :=
  book.data.map Prod.snd

/-- `birthday.value.replace(year=y)`: same month and day with the year
replaced; `datetime.replace` validates the resulting date and raises
`ValueError` when it is not representable (e.g. Feb 29 in a non-leap
year). -/
def replaceYear (d : Date) (y : Nat) : Option Date :=
  if ValidDate ⟨d.day, d.month, y⟩ then some ⟨d.day, d.month, y⟩ else none

/-- Largest day count a `timedelta` can carry; `timedelta(days=d)` raises
`OverflowError` beyond it. -/
def timedeltaMaxDays : Nat := 999999999

/-- The ordinal of December 31, 9999, the last date `datetime` can represent;
a `datetime` addition whose result passes it raises `OverflowError`. -/
def maxOrdinal : Nat := toOrdinal ⟨31, 12, 9999⟩

/-- The chained test `today <= next_birthday <= (today + timedelta(days=days))`
on the ordinal scale of `datetime` comparison.  Python evaluates it lazily:
when the first comparison is false the result is `False` and the addition is
never evaluated; otherwise `timedelta(days=days)` raises `OverflowError` past
its day cap and the addition raises `OverflowError` when the result passes
year 9999 — both modelled as `none`. -/
def inWindow (today : Date) (days : Nat) (nb : Date) : Option Bool :=
  if toOrdinal today ≤ toOrdinal nb then
    if days ≤ timedeltaMaxDays ∧ toOrdinal today + days ≤ maxOrdinal then
      some (decide (toOrdinal nb ≤ toOrdinal today + days))
    else
      none
  else
    some false

/-- The loop body of `get_upcoming_birthdays` over the record sequence:
for each record with a birthday, project it onto `today`'s year (a raised
`ValueError` aborts the whole call, yielding `none`) and collect the
record when the projection lies in the window. -/
def collectUpcoming (today : Date) (days : Nat) : List Record → Option (List Record)
  | [] => some []
  | r :: rs =>
    match r.birthday with
    | none => collectUpcoming today days rs
    | some b =>
      match replaceYear b.value today.year with
      | none => none
      | some nb =>
        match inWindow today days nb with
        | none => none
        | some w =>
          match collectUpcoming today days rs with
          | none => none
          | some l => some (if w = true then r :: l else l)

/-- `AddressBook.get_upcoming_birthdays(days)` with the reference instant
(`datetime.now()` in the source) made explicit; `none` models the raised
`ValueError` aborting the call. -/
def upcomingBirthdays (book : AddressBook) (days : Nat) (today : Date) :
    Option (List Record) :=
  collectUpcoming today days (bookValues book)

/-- Zero-padded two-digit decimal rendering (`%d`, `%m`). -/
def pad2 (n : Nat) : List Char :=
  [digitChar (n / 10 % 10), digitChar (n % 10)]

/-- Zero-padded four-digit decimal rendering (the `YYYY` of the
`DD.MM.YYYY` pattern). -/
def pad4 (n : Nat) : List Char :=
  [digitChar (n / 1000 % 10), digitChar (n / 100 % 10),
    digitChar (n / 10 % 10), digitChar (n % 10)]

/-- A date rendered in the `DD.MM.YYYY` pattern
(`strftime("%d.%m.%Y")` of `Record.__str__`). -/
def renderDMY (d : Date) : List Char :=
  pad2 d.day ++ ('.' :: (pad2 d.month ++ ('.' :: pad4 d.year)))

/-! Concrete objects used to instantiate theorems with hypotheses. -/

/-- The phone string `"0123456789"`. -/
def tenDigits : List Char := ['0', '1', '2', '3', '4', '5', '6', '7', '8', '9']

/-- The invalid phone string `"12345"` of the spec's example. -/
def shortPhone : List Char := ['1', '2', '3', '4', '5']

/-- The lenient input `"5.6.1990"` accepted by `strptime`. -/
def lenientStr : List Char := ['5', '.', '6', '.', '1', '9', '9', '0']

/-- A contact whose birthday is June 15. -/
def demoAlice : Record :=
  { name := ⟨['A', 'l', 'i', 'c', 'e']⟩,
    phones := [⟨['0', '5', '0', '1', '2', '3', '4', '5', '6', '7']⟩],
    birthday := some ⟨⟨15, 6, 1990⟩⟩ }

/-- A book holding only `demoAlice`. -/
def demoBook : AddressBook := ⟨[(['A', 'l', 'i', 'c', 'e'], demoAlice)]⟩

/-- A contact with one phone and no birthday. -/
def demoBob : Record :=
  { name := ⟨['B', 'o', 'b']⟩, phones := [⟨tenDigits⟩], birthday := none }

/-- A contact whose birthday is February 29 of a leap year. -/
def feb29Rec : Record :=
  { name := ⟨['E', 'v', 'e']⟩, phones := [], birthday := some ⟨⟨29, 2, 2020⟩⟩ }

/-- A book holding only `feb29Rec`. -/
def feb29Book : AddressBook := ⟨[(['E', 'v', 'e'], feb29Rec)]⟩

/-- C2: constructing a Phone from `s` succeeds with stored value `s` iff `s`
is exactly ten decimal digits; every other string fails with the
invalid-phone-format error. -/
theorem parsePhone_ok_iff (s : List Char) :
    (parsePhone s = Except.ok ⟨s⟩ ↔
      s.length = 10 ∧ ∀ c ∈ s, (digitVal? c).isSome = true) ∧
    (parsePhone s = Except.error phoneErr ↔
      ¬(s.length = 10 ∧ ∀ c ∈ s, (digitVal? c).isSome = true)) := by
  by_cases h : s.length = 10 ∧ ∀ c ∈ s, (digitVal? c).isSome = true
  · simp [parsePhone, h, Option.isSome_iff_ne_none]
  · simp [parsePhone, h, Option.isSome_iff_ne_none]

/-- C5: adding an invalid phone string raises the invalid-phone-format error
and leaves the record (in particular its phone list) exactly as it was. -/
theorem addPhone_invalid (r : Record) (s : List Char)
    (h : ¬(s.length = 10 ∧ ∀ c ∈ s, (digitVal? c).isSome = true)) :
    addPhone r s = (r, some phoneErr) := by
  simp [addPhone, parsePhone, h]

/-- Witness for `addPhone_invalid` at the spec's example `"12345"`. -/
theorem addPhone_invalid_witness :
    addPhone demoBob shortPhone = (demoBob, some phoneErr) :=
  addPhone_invalid demoBob shortPhone (by decide)

/-- C9 counterexample: constructing a Record from the empty name string does
not fail — it produces the record with empty name, no phones, no birthday. -/
theorem mkRecord_empty_succeeds :
    mkRecord [] = { name := ⟨[]⟩, phones := [], birthday := none } := rfl

/-- C9 amended: Record construction succeeds for every name string, the empty
one included, yielding a record with that name, an empty phone list and no
birthday; the constructor performs no validation at all. -/
theorem mkRecord_spec (name : List Char) :
    (mkRecord name).name.value = name ∧ (mkRecord name).phones = [] ∧
      (mkRecord name).birthday = none :=
  ⟨rfl, rfl, rfl⟩

/-- C4 counterexample: `demoBob` holds exactly the phone `"0123456789"`;
editing it to the invalid `"12345"` raises the invalid-phone-format error,
yet the phone list has become empty — the old phone is gone, not preserved. -/
theorem editPhone_not_atomic :
    demoBob.phones = [⟨tenDigits⟩] ∧
    (editPhone demoBob tenDigits shortPhone).2 = some phoneErr ∧
    (editPhone demoBob tenDigits shortPhone).1.phones = [] := by
  refine ⟨rfl, ?_, ?_⟩ <;> rfl

/-- C4 amended: when `editPhone` finds the old value but the new value is
invalid, the call raises the invalid-phone-format error and the record is
left with the found phone removed (removal happens before validation). -/
theorem editPhone_invalid_removes_old (r : Record) (oldV newV : List Char) (p : Phone)
    (hf : findPhone r oldV = some p)
    (hn : ¬(newV.length = 10 ∧ ∀ c ∈ newV, (digitVal? c).isSome = true)) :
    editPhone r oldV newV = ({ r with phones := r.phones.erase p }, some phoneErr) := by
  simp [editPhone, hf, addPhone, parsePhone, hn]

/-- Witness for `editPhone_invalid_removes_old` on `demoBob`. -/
theorem editPhone_invalid_removes_old_witness :
    editPhone demoBob tenDigits shortPhone =
      ({ demoBob with phones := demoBob.phones.erase ⟨tenDigits⟩ }, some phoneErr) :=
  editPhone_invalid_removes_old demoBob tenDigits shortPhone ⟨tenDigits⟩ rfl (by decide)

/-- C6 counterexample: on a record already holding `"0123456789"`, adding that
value again and then removing it leaves one copy behind, so `find_phone`
still returns a phone rather than none. -/
theorem add_remove_find_duplicate :
    findPhone (removePhone (addPhone demoBob tenDigits).1 tenDigits) tenDigits
      = some ⟨tenDigits⟩ := by
  rfl


/-- C6 amended: on a record that does not yet hold the value `v`, adding the
valid phone `v` makes `find_phone v` return the phone with value `v`, and
removing `v` afterwards makes `find_phone v` return none again. -/
theorem addPhone_findPhone_removePhone (r : Record) (v : List Char)
    (hval : v.length = 10 ∧ ∀ c ∈ v, (digitVal? c).isSome = true)
    (habs : findPhone r v = none) :
    findPhone (addPhone r v).1 v = some ⟨v⟩ ∧
    findPhone (removePhone (addPhone r v).1 v) v = none := by
  have hadd : (addPhone r v).1 = { r with phones := r.phones ++ [⟨v⟩] } := by
    unfold addPhone parsePhone
    rw [if_pos hval]
  have hnone : r.phones.find? (fun p => p.value == v) = none := habs
  have hfind : findPhone (addPhone r v).1 v = some ⟨v⟩ := by
    unfold findPhone
    rw [hadd]
    simp only [List.find?_append, hnone, Option.none_or]
    exact List.find?_cons_of_pos _ (by simp)
  refine ⟨hfind, ?_⟩
  have hnotmem : (⟨v⟩ : Phone) ∉ r.phones := by
    intro hmem
    have := List.find?_eq_none.mp hnone _ hmem
    simp at this
  unfold removePhone
  rw [hfind, hadd]
  simp only
  rw [List.erase_append_right _ hnotmem, List.erase_cons_head]
  simpa [findPhone] using hnone

/-- Witness for `addPhone_findPhone_removePhone` on a fresh record. -/
theorem addPhone_findPhone_removePhone_witness :
    findPhone (addPhone (mkRecord ['Z']) tenDigits).1 tenDigits = some ⟨tenDigits⟩ ∧
    findPhone (removePhone (addPhone (mkRecord ['Z']) tenDigits).1 tenDigits) tenDigits
      = none :=
  addPhone_findPhone_removePhone (mkRecord ['Z']) tenDigits (by decide) rfl

/-- The key list after a dict assignment: unchanged when the key was
present, the key appended otherwise. -/
theorem map_fst_dictInsert (l : List (List Char × Record)) (n : List Char) (v : Record) :
    (dictInsert l n v).map Prod.fst =
      if n ∈ l.map Prod.fst then l.map Prod.fst else l.map Prod.fst ++ [n] := by
  induction l with
  | nil => simp [dictInsert]
  | cons e t ih =>
    obtain ⟨k, w⟩ := e
    by_cases he : k = n
    · simp only [dictInsert, if_pos he]
      simp [he]
    · simp only [dictInsert, if_neg he]
      simp only [List.map_cons, ih]
      by_cases hn : n ∈ t.map Prod.fst
      · simp [hn]
      · simp [hn, Ne.symm he]

/-- Dict assignment preserves key uniqueness. -/
theorem nodup_dictInsert {l : List (List Char × Record)} {n : List Char}
    {v : Record} (h : (l.map Prod.fst).Nodup) :
    ((dictInsert l n v).map Prod.fst).Nodup := by
  rw [map_fst_dictInsert]
  by_cases hn : n ∈ l.map Prod.fst
  · simpa [hn] using h
  · simp [hn, List.nodup_append, h]

/-- The entries of a list carrying a key absent from its key list are none. -/
theorem filter_key_eq_nil {t : List (List Char × Record)} {n : List Char}
    (h : n ∉ t.map Prod.fst) :
    t.filter (fun e => e.1 == n) = [] := by
  rw [List.filter_eq_nil_iff]
  intro e he
  simp only [beq_iff_eq]
  intro hc
  exact h (List.mem_map.mpr ⟨e, he, hc⟩)

/-- After a dict assignment under key `n` on a key-unique dict, the entries
under `n` are exactly the assigned one. -/
theorem dictInsert_filter {l : List (List Char × Record)} {n : List Char}
    {v : Record} (h : (l.map Prod.fst).Nodup) :
    (dictInsert l n v).filter (fun e => e.1 == n) = [(n, v)] := by
  induction l with
  | nil => simp [dictInsert]
  | cons e t ih =>
    obtain ⟨k, w⟩ := e
    rw [List.map_cons] at h
    rcases List.nodup_cons.mp h with ⟨hk, ht⟩
    by_cases he : k = n
    · simp only [dictInsert, if_pos he]
      rw [List.filter_cons_of_pos (by simp [he])]
      rw [filter_key_eq_nil (by rw [← he]; exact hk), he]
    · simp only [dictInsert, if_neg he]
      rw [List.filter_cons_of_neg (by simp [he])]
      exact ih ht

/-- C7: adding two records carrying the same name leaves exactly one entry
under that name, holding the second record (last write wins, no error),
provided the book's keys were unique to begin with (the dict invariant). -/
theorem addRecord_twice (book : AddressBook) (r₁ r₂ : Record) (n : List Char)
    (h1 : r₁.name.value = n) (h2 : r₂.name.value = n)
    (hnd : (book.data.map Prod.fst).Nodup) :
    (addRecord (addRecord book r₁) r₂).data.filter (fun e => e.1 == n) = [(n, r₂)] := by
  unfold addRecord
  simp only [h1, h2]
  exact dictInsert_filter (nodup_dictInsert hnd)

/-- Witness for `addRecord_twice`: a record named `"Bob"` added twice. -/
theorem addRecord_twice_witness :
    (addRecord (addRecord demoBook (mkRecord ['B', 'o', 'b'])) demoBob).data.filter
        (fun e => e.1 == ['B', 'o', 'b']) = [(['B', 'o', 'b'], demoBob)] :=
  addRecord_twice demoBook (mkRecord ['B', 'o', 'b']) demoBob
    ['B', 'o', 'b'] rfl rfl (by decide)

/-- `digitVal?` inverts `digitChar` on values below ten. -/
theorem digitVal_digitChar {k : Nat} (h : k < 10) :
    digitVal? (digitChar k) = some k := by
  interval_cases k <;> decide

/-- A rendered digit is never the dot separator. -/
theorem digitChar_ne_dot (k : Nat) : digitChar k ≠ '.' := by
  unfold digitChar
  have h : k % 10 < 10 := Nat.mod_lt _ (by omega)
  revert h
  generalize k % 10 = m
  intro h
  interval_cases m <;> decide

/-- A dot-free string splits into itself alone. -/
theorem splitDot_no_dot {l : List Char} (h : ∀ c ∈ l, c ≠ '.') :
    splitDot l = [l] := by
  induction l with
  | nil => rfl
  | cons c t ih =>
    have hc : c ≠ '.' := h c (List.mem_cons_self c t)
    have ht : splitDot t = [t] := ih (fun x hx => h x (List.mem_cons_of_mem c hx))
    simp [splitDot, hc, ht]

/-- Splitting past a dot-free prefix peels it off as the first part. -/
theorem splitDot_append {l r : List Char} (h : ∀ c ∈ l, c ≠ '.') :
    splitDot (l ++ '.' :: r) = l :: splitDot r := by
  induction l with
  | nil => simp [splitDot]
  | cons c t ih =>
    have hc : c ≠ '.' := h c (List.mem_cons_self c t)
    have ht := ih (fun x hx => h x (List.mem_cons_of_mem c hx))
    simp [splitDot, hc, ht]

/-- The two-digit rendering of `n < 100` evaluates back to `n`. -/
theorem digitsVal_pad2 {n : Nat} (h : n < 100) :
    digitsVal? (pad2 n) = some n := by
  have h1 : digitVal? (digitChar (n / 10 % 10)) = some (n / 10 % 10) :=
    digitVal_digitChar (Nat.mod_lt _ (by omega))
  have h2 : digitVal? (digitChar (n % 10)) = some (n % 10) :=
    digitVal_digitChar (Nat.mod_lt _ (by omega))
  simp only [pad2, digitsVal?, digitsValAux, h1, h2]
  congr 1
  omega

/-- The four-digit rendering of `n < 10000` evaluates back to `n`. -/
theorem digitsVal_pad4 {n : Nat} (h : n < 10000) :
    digitsVal? (pad4 n) = some n := by
  have h1 : digitVal? (digitChar (n / 1000 % 10)) = some (n / 1000 % 10) :=
    digitVal_digitChar (Nat.mod_lt _ (by omega))
  have h2 : digitVal? (digitChar (n / 100 % 10)) = some (n / 100 % 10) :=
    digitVal_digitChar (Nat.mod_lt _ (by omega))
  have h3 : digitVal? (digitChar (n / 10 % 10)) = some (n / 10 % 10) :=
    digitVal_digitChar (Nat.mod_lt _ (by omega))
  have h4 : digitVal? (digitChar (n % 10)) = some (n % 10) :=
    digitVal_digitChar (Nat.mod_lt _ (by omega))
  simp only [pad4, digitsVal?, digitsValAux, h1, h2, h3, h4]
  congr 1
  omega

/-- No dot occurs in a two-digit rendering. -/
theorem pad2_no_dot (n : Nat) : ∀ c ∈ pad2 n, c ≠ '.' := by
  intro c hc
  simp [pad2] at hc
  rcases hc with h | h <;> rw [h] <;> exact digitChar_ne_dot _

/-- No dot occurs in a four-digit rendering. -/
theorem pad4_no_dot (n : Nat) : ∀ c ∈ pad4 n, c ≠ '.' := by
  intro c hc
  simp [pad4] at hc
  rcases hc with h | h | h | h <;> rw [h] <;> exact digitChar_ne_dot _

/-- Every month is at most 31 days long. -/
theorem daysInMonth_le_31 (y m : Nat) : daysInMonth y m ≤ 31 := by
  unfold daysInMonth
  split
  · split <;> omega
  · split <;> omega

/-- C8: rendering any representable calendar date in the `DD.MM.YYYY`
pattern and parsing the result as a Birthday returns exactly that date. -/
theorem parse_render_roundtrip (d : Date) (h : ValidDate d) :
    parseBirthday (renderDMY d) = Except.ok ⟨d⟩ := by
  obtain ⟨hy1, hy2, hm1, hm2, hd1, hd2⟩ := h
  have hday : d.day < 100 := by
    have := daysInMonth_le_31 d.year d.month
    omega
  have hsplit : splitDot (renderDMY d) = [pad2 d.day, pad2 d.month, pad4 d.year] := by
    unfold renderDMY
    rw [splitDot_append (pad2_no_dot _), splitDot_append (pad2_no_dot _),
      splitDot_no_dot (pad4_no_dot _)]
  unfold parseBirthday
  rw [hsplit]
  simp only [digitsVal_pad2 hday, digitsVal_pad2 (show d.month < 100 by omega),
    digitsVal_pad4 (show d.year < 10000 by omega)]
  have hcond : ((pad2 d.day).length = 1 ∨ (pad2 d.day).length = 2) ∧
      1 ≤ d.day ∧ d.day ≤ 31 ∧
      ((pad2 d.month).length = 1 ∨ (pad2 d.month).length = 2) ∧
      1 ≤ d.month ∧ d.month ≤ 12 ∧
      (pad4 d.year).length = 4 ∧ ValidDate ⟨d.day, d.month, d.year⟩ := by
    refine ⟨Or.inr rfl, hd1, ?_, Or.inr rfl, hm1, hm2, rfl,
      hy1, hy2, hm1, hm2, hd1, hd2⟩
    have := daysInMonth_le_31 d.year d.month
    omega
  rw [if_pos hcond]

/-- Witness for `parse_render_roundtrip` on June 15, 1990. -/
theorem parse_render_roundtrip_witness :
    parseBirthday (renderDMY ⟨15, 6, 1990⟩) = Except.ok ⟨⟨15, 6, 1990⟩⟩ :=
  parse_render_roundtrip ⟨15, 6, 1990⟩ (by decide)

/-- The spec claim's pattern, written from its words: the string is the
literal `DD.MM.YYYY` rendering (two-digit day, two-digit month, four-digit
year, dot-separated) of a real calendar date. -/
def StrictDDMMYYYY (s : List Char) : Prop :=
  ∃ d : Date, ValidDate d ∧ s = renderDMY d

/-- C3 counterexample: `"5.6.1990"` is accepted by the Birthday constructor
although it does not match the two-digit `DD.MM.YYYY` pattern (strptime
also accepts one-digit day and month fields). -/
theorem parseBirthday_strict_counterexample :
    parseBirthday lenientStr = Except.ok ⟨⟨5, 6, 1990⟩⟩ ∧ ¬ StrictDDMMYYYY lenientStr := by
  constructor
  · rfl
  · rintro ⟨d, hv, he⟩
    have hlen := congrArg List.length he
    simp [renderDMY, pad2, pad4, lenientStr] at hlen

/-- The shape `strptime("%d.%m.%Y")` accepts: three dot-separated digit
fields, the day of one or two digits valued 1..31, the month of one or two
digits valued 1..12, the year of exactly four digits, together forming a
real representable calendar date. -/
def LenientDMY (s : List Char) : Prop :=
  ∃ ds ms ys dv mv yv, splitDot s = [ds, ms, ys] ∧
    digitsVal? ds = some dv ∧ digitsVal? ms = some mv ∧ digitsVal? ys = some yv ∧
    (ds.length = 1 ∨ ds.length = 2) ∧ 1 ≤ dv ∧ dv ≤ 31 ∧
    (ms.length = 1 ∨ ms.length = 2) ∧ 1 ≤ mv ∧ mv ≤ 12 ∧
    ys.length = 4 ∧ ValidDate ⟨dv, mv, yv⟩

/-- C3 amended: Birthday construction succeeds exactly on the lenient
`D[D].M[M].YYYY` shape denoting a real calendar date, and fails with the
invalid-date-format error on every other string. -/
theorem parseBirthday_ok_iff (s : List Char) :
    ((∃ b, parseBirthday s = Except.ok b) ↔ LenientDMY s) ∧
    (¬ LenientDMY s → parseBirthday s = Except.error dateErr) := by
  by_cases hl : LenientDMY s
  · obtain ⟨ds, ms, ys, dv, mv, yv, hsp, hd, hm, hy,
      hc1, hc2, hc3, hc4, hc5, hc6, hc7, hv⟩ := hl
    have hok : parseBirthday s = Except.ok ⟨⟨dv, mv, yv⟩⟩ := by
      unfold parseBirthday
      simp only [hsp, hd, hm, hy]
      rw [if_pos ⟨hc1, hc2, hc3, hc4, hc5, hc6, hc7, hv⟩]
    refine ⟨⟨fun _ => ?_, fun _ => ⟨_, hok⟩⟩, fun hn => absurd ?_ hn⟩
    · exact ⟨ds, ms, ys, dv, mv, yv, hsp, hd, hm, hy,
        hc1, hc2, hc3, hc4, hc5, hc6, hc7, hv⟩
    · exact ⟨ds, ms, ys, dv, mv, yv, hsp, hd, hm, hy,
        hc1, hc2, hc3, hc4, hc5, hc6, hc7, hv⟩
  · have herr : parseBirthday s = Except.error dateErr := by
      unfold parseBirthday
      rcases hsp : splitDot s with _ | ⟨ds, _ | ⟨ms, _ | ⟨ys, _ | ⟨z, zs⟩⟩⟩⟩
      · rfl
      · rfl
      · rfl
      · rcases hd : digitsVal? ds with _ | dv
        · simp only [hd]
        · rcases hm : digitsVal? ms with _ | mv
          · simp only [hd, hm]
          · rcases hy : digitsVal? ys with _ | yv
            · simp only [hd, hm, hy]
            · simp only [hd, hm, hy]
              rw [if_neg]
              rintro ⟨hc1, hc2, hc3, hc4, hc5, hc6, hc7, hv⟩
              exact hl ⟨ds, ms, ys, dv, mv, yv, hsp, hd, hm, hy,
                hc1, hc2, hc3, hc4, hc5, hc6, hc7, hv⟩
      · rfl
    refine ⟨⟨fun hb => ?_, fun h => absurd h hl⟩, fun _ => herr⟩
    rcases hb with ⟨b, hb⟩
    rw [herr] at hb
    cases hb

/-- Witness for `parseBirthday_ok_iff` at `"15.06.1990"`. -/
theorem parseBirthday_ok_iff_witness :
    ∃ b, parseBirthday (renderDMY ⟨15, 6, 1990⟩) = Except.ok b :=
  (parseBirthday_ok_iff (renderDMY ⟨15, 6, 1990⟩)).1.mpr
    ⟨['1', '5'], ['0', '6'], ['1', '9', '9', '0'], 15, 6, 1990,
      by decide, by decide, by decide, by decide, by decide, by decide,
      by decide, by decide, by decide, by decide, by decide, by decide⟩

/-- Membership in the collected list over any record sequence: a record is
kept iff it occurs in the sequence and its (projected) birthday passes the
window test. -/
theorem collectUpcoming_mem (today : Date) (days : Nat) :
    ∀ (recs : List Record) (l : List Record),
      collectUpcoming today days recs = some l → ∀ r : Record,
      (r ∈ l ↔ r ∈ recs ∧ ∃ b nb, r.birthday = some b ∧
        replaceYear b.value today.year = some nb ∧
        inWindow today days nb = some true) := by
  intro recs
  induction recs with
  | nil =>
    intro l h r
    simp only [collectUpcoming, Option.some.injEq] at h
    subst h
    simp
  | cons a t ih =>
    intro l h r
    rcases hb : a.birthday with _ | b
    · simp only [collectUpcoming, hb] at h
      rw [ih l h r]
      constructor
      · rintro ⟨hm, hc⟩
        exact ⟨List.mem_cons_of_mem a hm, hc⟩
      · rintro ⟨hm, hc⟩
        rcases List.mem_cons.mp hm with he | hm'
        · rcases hc with ⟨b', nb, hb', _⟩
          rw [he, hb] at hb'
          cases hb'
        · exact ⟨hm', hc⟩
    · simp only [collectUpcoming, hb] at h
      rcases hrep : replaceYear b.value today.year with _ | nb
      · simp only [hrep] at h
        exact Option.noConfusion h
      · simp only [hrep] at h
        rcases hw : inWindow today days nb with _ | w
        · simp only [hw] at h
          exact Option.noConfusion h
        · simp only [hw] at h
          rcases hc : collectUpcoming today days t with _ | l'
          · simp only [hc] at h
            exact Option.noConfusion h
          · simp only [hc, Option.some.injEq] at h
            have hl : (if w = true then a :: l' else l') = l := h
            have iht := ih l' hc
            by_cases hwt : w = true
            · rw [if_pos hwt] at hl
              subst hl
              subst hwt
              constructor
              · intro hr
                rcases List.mem_cons.mp hr with he | hm'
                · subst he
                  exact ⟨List.mem_cons_self _ _, b, nb, hb, hrep, hw⟩
                · rcases (iht r).mp hm' with ⟨hm'', hc'⟩
                  exact ⟨List.mem_cons_of_mem a hm'', hc'⟩
              · rintro ⟨hm, hc'⟩
                rcases List.mem_cons.mp hm with he | hm'
                · subst he
                  exact List.mem_cons_self _ _
                · exact List.mem_cons_of_mem a ((iht r).mpr ⟨hm', hc'⟩)
            · rw [if_neg hwt] at hl
              subst hl
              constructor
              · intro hr
                rcases (iht r).mp hr with ⟨hm'', hc'⟩
                exact ⟨List.mem_cons_of_mem a hm'', hc'⟩
              · rintro ⟨hm, hc'⟩
                rcases List.mem_cons.mp hm with he | hm'
                · rcases hc' with ⟨b', nb', hb', hrep', hw'⟩
                  rw [he, hb] at hb'
                  cases hb'
                  rw [hrep] at hrep'
                  cases hrep'
                  rw [hw] at hw'
                  cases hw'
                  exact absurd rfl hwt
                · exact (iht r).mpr ⟨hm', hc'⟩

/-- C1: whenever `get_upcoming_birthdays` completes with a result list, a
record is in that list iff it is in the book and carries a birthday whose
projection onto the reference instant's year lies in the closed window
`[referenceInstant, referenceInstant + windowDays]` — in particular a
projection earlier in the year than the reference instant is never included
(no roll-over to next year). -/
theorem upcomingBirthdays_mem (book : AddressBook) (days : Nat) (today : Date)
    (l : List Record) (h : upcomingBirthdays book days today = some l) (r : Record) :
    r ∈ l ↔ r ∈ bookValues book ∧ ∃ b nb, r.birthday = some b ∧
      replaceYear b.value today.year = some nb ∧
      inWindow today days nb = some true :=
  collectUpcoming_mem today days (bookValues book) l h r

/-- Witness for `upcomingBirthdays_mem`: on June 10, 2024 with a 7-day
window, the contact with birthday June 15 is reported. -/
theorem upcomingBirthdays_mem_witness :
    upcomingBirthdays demoBook 7 ⟨10, 6, 2024⟩ = some [demoAlice] ∧
      demoAlice ∈ [demoAlice] :=
  ⟨rfl, (upcomingBirthdays_mem demoBook 7 ⟨10, 6, 2024⟩ [demoAlice] rfl demoAlice).mpr
    ⟨by decide, ⟨⟨15, 6, 1990⟩⟩, ⟨15, 6, 2024⟩, rfl, by decide, by decide⟩⟩

/-- A stored birthday is a representable date (guaranteed by construction
through the Birthday parser); vacuously true without a birthday. -/
def birthdayValidB (r : Record) : Bool :=
  match r.birthday with
  | none => true
  | some b => decide (ValidDate b.value)

/-- Whether the record's stored birthday falls on February 29. -/
def hasFeb29 (r : Record) : Bool :=
  match r.birthday with
  | none => false
  | some b => b.value.month == 2 && b.value.day == 29

/-- February's length in any year. -/
theorem daysInMonth_feb (y : Nat) : daysInMonth y 2 = if isLeap y then 29 else 28 := by
  simp [daysInMonth]

/-- Outside February the month length does not depend on the year. -/
theorem daysInMonth_ne_feb {m : Nat} (h : m ≠ 2) (y y' : Nat) :
    daysInMonth y m = daysInMonth y' m := by
  unfold daysInMonth
  rw [if_neg h, if_neg h]

/-- `datetime.replace(year=y)` on a representable date succeeds iff the date
is not February 29 being moved into a non-leap year. -/
theorem replaceYear_isSome {d : Date} (hd : ValidDate d) {y : Nat}
    (hy1 : 1 ≤ y) (hy2 : y ≤ 9999) :
    (replaceYear d y).isSome = true ↔
      (d.month = 2 ∧ d.day = 29 → isLeap y = true) := by
  obtain ⟨_, _, hm1, hm2, hd1, hd2⟩ := hd
  unfold replaceYear
  by_cases hv : ValidDate ⟨d.day, d.month, y⟩
  · rw [if_pos hv]
    simp only [Option.isSome_some, true_iff]
    rintro ⟨hm, hday⟩
    obtain ⟨_, _, _, _, _, hd2'⟩ := hv
    rw [show (⟨d.day, d.month, y⟩ : Date).day = d.day from rfl,
      show (⟨d.day, d.month, y⟩ : Date).month = d.month from rfl,
      show (⟨d.day, d.month, y⟩ : Date).year = y from rfl, hm, hday,
      daysInMonth_feb] at hd2'
    by_cases hl : isLeap y = true
    · exact hl
    · rw [if_neg hl] at hd2'
      omega
  · rw [if_neg hv]
    constructor
    · intro h
      simp at h
    · intro himp
      exfalso
      apply hv
      refine ⟨hy1, hy2, hm1, hm2, hd1, ?_⟩
      show d.day ≤ daysInMonth y d.month
      by_cases hm : d.month = 2
      · by_cases hday : d.day = 29
        · have hl := himp ⟨hm, hday⟩
          rw [hm, hday, daysInMonth_feb, if_pos hl]
        · have h29 : d.day ≤ 29 := by
            rw [hm, daysInMonth_feb] at hd2
            by_cases hl : isLeap d.year = true
            · rw [if_pos hl] at hd2; omega
            · rw [if_neg hl] at hd2; omega
          have h28 : 28 ≤ daysInMonth y d.month := by
            rw [hm, daysInMonth_feb]
            by_cases hl : isLeap y = true
            · rw [if_pos hl]; omega
            · rw [if_neg hl]
          omega
      · rw [daysInMonth_ne_feb hm y d.year]
        exact hd2

/-- Within the `timedelta` day cap and the `datetime` range, the window test
never raises and is the plain closed-interval test. -/
theorem inWindow_eq_some (today : Date) (days : Nat) (nb : Date)
    (hdays : days ≤ timedeltaMaxDays)
    (hbound : toOrdinal today + days ≤ maxOrdinal) :
    inWindow today days nb = some (decide (toOrdinal today ≤ toOrdinal nb ∧
      toOrdinal nb ≤ toOrdinal today + days)) := by
  unfold inWindow
  by_cases h1 : toOrdinal today ≤ toOrdinal nb
  · rw [if_pos h1, if_pos ⟨hdays, hbound⟩]
    congr 1
    simp [h1]
  · rw [if_neg h1]
    simp [h1]

/-- Success of the collection loop, characterized: with representable stored
birthdays and a representable reference year, the loop completes iff every
February-29 birthday meets a leap reference year. -/
theorem collectUpcoming_isSome (today : Date) (days : Nat)
    (hy1 : 1 ≤ today.year) (hy2 : today.year ≤ 9999)
    (hdays : days ≤ timedeltaMaxDays)
    (hbound : toOrdinal today + days ≤ maxOrdinal) :
    ∀ recs : List Record, (∀ r ∈ recs, birthdayValidB r = true) →
      ((collectUpcoming today days recs).isSome = true ↔
        ∀ r ∈ recs, hasFeb29 r = true → isLeap today.year = true) := by
  intro recs
  induction recs with
  | nil =>
    intro _
    simp [collectUpcoming]
  | cons a t ih =>
    intro hwf
    have hwa := hwf a (List.mem_cons_self a t)
    have iht := ih (fun r hr => hwf r (List.mem_cons_of_mem a hr))
    rcases hb : a.birthday with _ | b
    · have hf : hasFeb29 a = false := by simp [hasFeb29, hb]
      simp only [collectUpcoming, hb]
      rw [iht]
      constructor
      · intro h r hr hfr
        rcases List.mem_cons.mp hr with he | hm
        · rw [he, hf] at hfr
          cases hfr
        · exact h r hm hfr
      · intro h r hr hfr
        exact h r (List.mem_cons_of_mem a hr) hfr
    · have hvb : ValidDate b.value := by
        have h' := hwa
        simp [birthdayValidB, hb] at h'
        exact h'
      have hfa : hasFeb29 a = (b.value.month == 2 && b.value.day == 29) := by
        simp [hasFeb29, hb]
      have hiff := replaceYear_isSome hvb hy1 hy2
      simp only [collectUpcoming, hb]
      rcases hrep : replaceYear b.value today.year with _ | nb
      · have hno : ¬(b.value.month = 2 ∧ b.value.day = 29 → isLeap today.year = true) := by
          rw [← hiff, hrep]
          simp
        push_neg at hno
        simp only [hrep, Option.isSome_none]
        constructor
        · intro h
          cases h
        · intro h
          have hfa' : hasFeb29 a = true := by
            rw [hfa]
            simp [hno.1.1, hno.1.2]
          have := h a (List.mem_cons_self a t) hfa'
          rw [this] at hno
          exact (hno.2 rfl).elim
      · have himp : b.value.month = 2 ∧ b.value.day = 29 → isLeap today.year = true :=
          hiff.mp (by rw [hrep]; rfl)
        simp only [hrep, inWindow_eq_some today days nb hdays hbound]
        rcases hc : collectUpcoming today days t with _ | l'
        · have hnt : ¬∀ r ∈ t, hasFeb29 r = true → isLeap today.year = true := by
            rw [← iht, hc]
            simp
          simp only [hc, Option.isSome_none]
          constructor
          · intro h
            cases h
          · intro h
            exact absurd (fun r hr => h r (List.mem_cons_of_mem a hr)) hnt
        · have ht := iht.mp (by rw [hc]; rfl)
          simp only [hc, Option.isSome_some]
          constructor
          · intro _ r hr hfr
            rcases List.mem_cons.mp hr with he | hm
            · rw [he, hfa] at hfr
              simp at hfr
              exact himp ⟨hfr.1, hfr.2⟩
            · exact ht r hm hfr
          · intro _
            trivial

/-- C10 amended: over representable stored birthdays and a representable
reference instant, and provided the window end is itself representable
(`windowDays` within the `timedelta` day cap and the reference ordinal plus
`windowDays` not past December 31, 9999 — otherwise the window arithmetic can
raise `OverflowError` regardless of leap years), `get_upcoming_birthdays`
always completes when the reference year is a leap year, and in a non-leap
reference year completes without error iff no stored birthday falls on
February 29 (a February-29 birthday makes the projection raise instead of
returning a list). -/
theorem upcomingBirthdays_total (book : AddressBook) (days : Nat) (today : Date)
    (hwf : ∀ r ∈ bookValues book, birthdayValidB r = true)
    (htoday : ValidDate today)
    (hdays : days ≤ timedeltaMaxDays)
    (hbound : toOrdinal today + days ≤ maxOrdinal) :
    (isLeap today.year = true → (upcomingBirthdays book days today).isSome = true) ∧
    (isLeap today.year = false →
      ((upcomingBirthdays book days today).isSome = true ↔
        ∀ r ∈ bookValues book, hasFeb29 r = false)) := by
  have hiff := collectUpcoming_isSome today days htoday.1 htoday.2.1 hdays hbound
    (bookValues book) hwf
  constructor
  · intro hleap
    unfold upcomingBirthdays
    rw [hiff]
    intro r _ _
    exact hleap
  · intro hnl
    unfold upcomingBirthdays
    rw [hiff]
    constructor
    · intro h r hr
      by_contra hc
      have hft : hasFeb29 r = true := by
        revert hc
        cases hasFeb29 r <;> simp
      have := h r hr hft
      rw [this] at hnl
      cases hnl
    · intro h r hr hfr
      rw [h r hr] at hfr
      cases hfr

/-- Witness for `upcomingBirthdays_total`: a February-29 birthday makes the
query fail in the non-leap year 2023. -/
theorem upcomingBirthdays_total_witness :
    (upcomingBirthdays feb29Book 7 ⟨1, 1, 2023⟩).isSome = false := by
  have h := (upcomingBirthdays_total feb29Book 7 ⟨1, 1, 2023⟩
    (by decide) (by decide) (by decide) (by decide)).2 (by decide)
  cases hb : (upcomingBirthdays feb29Book 7 ⟨1, 1, 2023⟩).isSome with
  | false => rfl
  | true =>
    have h2 := h.mp hb feb29Rec (by decide)
    exact absurd h2 (by decide)

/-- C10 counterexample: in the leap year 2024, a window of three million days
makes `today + timedelta(days=days)` pass year 9999, so the query raises
`OverflowError` instead of returning a list, although no stored birthday
falls on February 29. -/
theorem upcomingBirthdays_overflow_counterexample :
    isLeap 2024 = true ∧ (∀ r ∈ bookValues demoBook, hasFeb29 r = false) ∧
      (upcomingBirthdays demoBook 3000000 ⟨10, 6, 2024⟩).isSome = false := by
  decide
